import Mathlib

/-!
Shallow embedding of the reactive form engine in `src/index.ts` (class `Form`).

JavaScript objects used as string-keyed records (`FormValuesObject`,
`FormValidationError`, `FormMetaBoolean`) are embedded as association lists
`StrMap α = List (String × α)`; `record[path] = value` is `setk`, property
lookup is `getk` (returning `none` for an absent key, i.e. JS `undefined`).

A field value (`FieldValue = string | boolean | undefined`) is the inductive
`FieldValue`.  The errors container is typed `Record<Field, string>` in the
source but at runtime can hold `undefined` at a key (via
`errs != null ? errs[field] : ''` when `errs` lacks the key), so an error
entry is embedded as `Option String` (`none` = JS `undefined`).

The svelte stores of a `Form` instance are embedded as fields of a `Form`
structure; each method becomes a state-transformer `Form → Form` computing the
method's net effect on the stores.  `handleSubmit` additionally returns a
`Bool` recording whether the `onSubmit` callback was invoked.  The derived
stores `isValid` and `modified` are embedded as functions of the state,
mirroring the `derived` combinators in the constructor.
-/

/-- A JS field value: `string | boolean | undefined`. -/
inductive FieldValue where
  | str (s : String)
  | bool (b : Bool)
  | undef
  deriving DecidableEq, Repr

/-- JS truthiness of a `FieldValue` (used by `if (value)` in `updateField`):
the empty string, `false` and `undefined` are falsy. -/
def FieldValue.truthy : FieldValue → Bool
  | .str s => !(s == "")
  | .bool b => b
  | .undef => false

/-- A JS object used as a string-keyed record, in insertion order. -/
abbrev StrMap (α : Type) := List (String × α)

/-- Property lookup `m[k]`: `none` is JS `undefined` (key absent). -/
def getk : StrMap α → String → Option α
  | [], _ => none
  | p :: rest, k => if p.1 = k then some p.2 else getk rest k

/-- Property write `m[k] = v`: overwrites the binding in place when the key
exists, otherwise appends it (JS object key-insertion order). -/
def setk : StrMap α → String → α → StrMap α
  | [], k, v => [(k, v)]
  | p :: rest, k, v => if p.1 = k then (k, v) :: rest else p :: setk rest k v

/-- `Object.keys(m)`, in insertion order. -/
def keysOf (m : StrMap α) : List String := m.map Prod.fst

/-- `Object.values(m)`, in insertion order. -/
def valuesOf (m : StrMap α) : List α := m.map Prod.snd

/-- The source's `assign(object, value)` helper: a fresh record with the same
keys, every value replaced by `value`. -/
def mapAssign (m : StrMap α) (v : β) : StrMap β := m.map (fun p => (p.1, v))

/-- The source's `clone` helper, `JSON.parse(JSON.stringify(object))`:
a deep copy.  `JSON.stringify` drops object entries whose value is
`undefined`, so the copy keeps exactly the entries with a defined value. -/
def clone (m : StrMap FieldValue) : StrMap FieldValue :=
  m.filter (fun p => !(p.2 == FieldValue.undef))

/-- An error-container entry: a string, or JS `undefined` (`none`). -/
abbrev ErrVal := Option String

/-- A `FormValidationError` result coerced into the errors container. -/
def strToErr (m : StrMap String) : StrMap ErrVal := m.map (fun p => (p.1, some p.2))

/-- A yup `Schema`: whole-form validation collecting all violations as
`(path, message)` pairs, and single-field validation (`validateAt`) against
the full current values, failing with one message. -/
structure Schema where
  validateForm : StrMap FieldValue → Except (List (String × String)) Unit
  validateAt : String → StrMap FieldValue → Except String Unit

/-- The construction configuration (`Partial<FormConfig>`): `onSubmit` is
embedded as the flag of whether a callback was provided, since the callback
body is external. -/
structure FormConfig where
  initialValues : StrMap FieldValue
  validationSchema : Option Schema
  validate : Option (StrMap FieldValue → Option (StrMap String))
  onSubmit : Bool

/-- The state of one `Form` instance: the configured validators (fixed at
construction) and the contents of the writable stores.  `initialValues` is
mutable instance state (`updateInitialValues` replaces it). -/
structure Form where
  hasOnSubmit : Bool
  validationSchema : Option Schema
  validateFn : Option (StrMap FieldValue → Option (StrMap String))
  initialValues : StrMap FieldValue
  form : StrMap FieldValue
  errors : StrMap ErrVal
  touched : StrMap Bool
  isSubmitting : Bool
  isValidating : Bool

/-- `getInitial.values()`: a deep copy of the stored initial values. -/
def getInitialValues (iv : StrMap FieldValue) : StrMap FieldValue := clone iv

/-- `getInitial.errors()`: every key of the initial values mapped to
`Form.NO_ERROR` (the empty string). -/
def getInitialErrors (iv : StrMap FieldValue) : StrMap ErrVal :=
  mapAssign iv (some "")

/-- `getInitial.touched()`: every key of the initial values mapped to
`!Form.IS_TOUCHED` (`false`). -/
def getInitialTouched (iv : StrMap FieldValue) : StrMap Bool :=
  mapAssign iv false

/-- `isInitialValuesValid`: `false` (after a console warning) when the
provided map has no keys. -/
def isInitialValuesValid (iv : StrMap FieldValue) : Bool :=
  !((keysOf iv).length == 0)

/-- The constructor: stores the configuration and initializes the writable
stores from `getInitial`.  The result of the `isInitialValuesValid` check is
ignored here (only a warning is logged); construction always completes. -/
def Form.new (cfg : FormConfig) : Form :=
  { hasOnSubmit := cfg.onSubmit
    validationSchema := cfg.validationSchema
    validateFn := cfg.validate
    initialValues := cfg.initialValues
    form := getInitialValues cfg.initialValues
    errors := getInitialErrors cfg.initialValues
    touched := getInitialTouched cfg.initialValues
    isSubmitting := false
    isValidating := false }

/-- The derived store `isValid`: every touched entry `=== Form.IS_TOUCHED`
and every errors entry `=== Form.NO_ERROR`. -/
def Form.isValid (f : Form) : Bool :=
  (valuesOf f.touched).all (fun field => field == true)
    && (valuesOf f.errors).all (fun field => field == some "")

/-- The derived store `modified`: per key of the current values, whether the
current value `!==` the initial value (an absent initial key reads as
`undefined`). -/
def Form.modified (f : Form) : StrMap Bool :=
  f.form.map (fun p => (p.1, !(p.2 == (getk f.initialValues p.1).getD .undef)))

/-- The derived store `isModified`: some modified entry is `true`. -/
def Form.isModified (f : Form) : Bool :=
  (valuesOf f.modified).any (fun field => field == true)

/-- `updateField(field, value)`: writes the value into the values store,
guarded by JS truthiness of the value (`if (value)`). -/
def Form.updateField (f : Form) (field : String) (value : FieldValue) : Form :=
  if value.truthy then { f with form := setk f.form field value } else f

/-- `updateTouched(field, value)`. -/
def Form.updateTouched (f : Form) (field : String) (value : Bool) : Form :=
  { f with touched := setk f.touched field value }

/-- `validateFieldValue(field, value)`: marks the field touched, then runs
single-field validation — against the schema when one is configured
(reading the live form values), otherwise against the custom function
(applied to the one-key map `{[field]: value}`), otherwise does nothing.
Both validation paths pulse `isValidating` and leave it `false`. -/
def Form.validateFieldValue (f : Form) (field : String) (value : FieldValue) : Form :=
  let ft := f.updateTouched field true
  match ft.validationSchema with
  | some sch =>
    match sch.validateAt field ft.form with
    | Except.ok _ => { ft with errors := setk ft.errors field (some ""), isValidating := false }
    | Except.error msg => { ft with errors := setk ft.errors field (some msg), isValidating := false }
  | none =>
    match ft.validateFn with
    | some vfn =>
      let errVal : ErrVal :=
        match vfn [(field, value)] with
        | some errs => getk errs field
        | none => some ""
      { ft with errors := setk ft.errors field errVal, isValidating := false }
    | none => ft

/-- `validateField(field)`: reads the field's current value from the values
store and validates it. -/
def Form.validateField (f : Form) (field : String) : Form :=
  f.validateFieldValue field ((getk f.form field).getD .undef)

/-- `updateValidateField(field, value)`: update then validate. -/
def Form.updateValidateField (f : Form) (field : String) (value : FieldValue) : Form :=
  (f.updateField field value).validateFieldValue field value

/-- `handleReset()`: restores the three writable stores from `getInitial`
applied to the currently stored initial values. -/
def Form.handleReset (f : Form) : Form :=
  { f with form := getInitialValues f.initialValues
           errors := getInitialErrors f.initialValues
           touched := getInitialTouched f.initialValues }

/-- `updateInitialValues(newValues)`: no-op when the new map is empty,
otherwise replaces the stored initial values and resets. -/
def Form.updateInitialValues (f : Form) (newValues : StrMap FieldValue) : Form :=
  if isInitialValuesValid newValues then
    Form.handleReset { f with initialValues := newValues }
  else f

/-- `clearErrorsAndSubmit(values)`: when an `onSubmit` callback is
configured, sets every key of `values` to the empty-string error and invokes
the callback (the returned `Bool`); always clears `isSubmitting`. -/
def Form.clearErrorsAndSubmit (f : Form) (values : StrMap FieldValue) : Form × Bool :=
  if f.hasOnSubmit then
    ({ f with errors := mapAssign values (some ""), isSubmitting := false }, true)
  else
    ({ f with isSubmitting := false }, false)

/-- `handleSubmit()`: sets `isSubmitting`, reads the current values, then
dispatches — custom function first (failure writes the returned error map
verbatim via `errors.set`), else schema whole-form validation (failure
writes each violation's message at its path), else submits directly.  The
returned `Bool` records whether `onSubmit` was invoked. -/
def Form.handleSubmit (f : Form) : Form × Bool :=
  let f1 : Form := { f with isSubmitting := true }
  match f1.validateFn with
  | some vfn =>
    match vfn f1.form with
    | none =>
      let r := f1.clearErrorsAndSubmit f1.form
      ({ r.1 with isValidating := false }, r.2)
    | some m =>
      if (keysOf m).length ≤ 0 then
        let r := f1.clearErrorsAndSubmit f1.form
        ({ r.1 with isValidating := false }, r.2)
      else
        ({ f1 with errors := strToErr m, isSubmitting := false, isValidating := false }, false)
  | none =>
    match f1.validationSchema with
    | some sch =>
      match sch.validateForm f1.form with
      | Except.ok _ =>
        let r := f1.clearErrorsAndSubmit f1.form
        ({ r.1 with isValidating := false }, r.2)
      | Except.error viols =>
        ({ f1 with errors := viols.foldl (fun e pv => setk e pv.1 (some pv.2)) f1.errors
                   isSubmitting := false
                   isValidating := false }, false)
    | none => f1.clearErrorsAndSubmit f1.form

/-- C1: `isValid` is `true` iff every touched entry is `true` and every
errors entry is the empty string. -/
theorem isValid_iff_allTouched_noErrors (f : Form) :
    f.isValid = true ↔
      ((∀ p ∈ f.touched, p.2 = true) ∧ (∀ q ∈ f.errors, q.2 = some "")) := by
  simp only [Form.isValid, valuesOf, Bool.and_eq_true, List.all_eq_true, List.mem_map,
    beq_iff_eq, forall_exists_index, and_imp]
  constructor
  · rintro ⟨h1, h2⟩
    exact ⟨fun p hp => h1 p.2 p hp rfl, fun q hq => h2 q.2 q hq rfl⟩
  · rintro ⟨h1, h2⟩
    exact ⟨fun b p hp he => he ▸ h1 p hp, fun e q hq he => he ▸ h2 q hq⟩

/-! ### Association-list lemmas shared by several claims -/

theorem getk_setk_self (m : StrMap α) (k : String) (v : α) :
    getk (setk m k v) k = some v := by
  induction m with
  | nil => simp [setk, getk]
  | cons p rest ih =>
    by_cases h : p.1 = k
    · simp [setk, getk, h]
    · simp [setk, getk, h, ih]

theorem getk_setk_ne (m : StrMap α) (k k' : String) (v : α) (h : k ≠ k') :
    getk (setk m k v) k' = getk m k' := by
  induction m with
  | nil => simp [setk, getk, h]
  | cons p rest ih =>
    by_cases hp : p.1 = k
    · simp [setk, getk, hp, h]
    · simp [setk, getk, hp, ih]

theorem keysOf_setk_mem (m : StrMap α) (k : String) (v : α) (h : k ∈ keysOf m) :
    keysOf (setk m k v) = keysOf m := by
  induction m with
  | nil => simp [keysOf] at h
  | cons p rest ih =>
    by_cases hp : p.1 = k
    · simp [setk, keysOf, hp]
    · simp only [keysOf, List.map_cons, List.mem_cons] at h
      rcases h with h | h
      · exact absurd h.symm hp
      · have ih2 := ih h
        simp only [keysOf] at ih2
        simp [setk, keysOf, hp, ih2]

theorem keysOf_mapAssign (m : StrMap α) (v : β) :
    keysOf (mapAssign m v) = keysOf m := by
  simp [keysOf, mapAssign]

/-! ### C2: `updateField` and deliberate `false` -/

/-- Concrete instance for C2: one boolean field `terms`, currently `true`. -/
def sampleC2 : Form :=
  Form.new { initialValues := [("terms", FieldValue.bool true)]
             validationSchema := none
             validate := none
             onSubmit := true }

/-- C2 counterexample: `updateField("terms", false)` does NOT write `false`
into the values store — the JS truthiness guard `if (value)` skips a
deliberate boolean `false`, so the old value `true` survives. -/
theorem updateField_skips_false_counterexample :
    (sampleC2.updateField "terms" (FieldValue.bool false)).form = sampleC2.form
      ∧ getk (sampleC2.updateField "terms" (FieldValue.bool false)).form "terms"
          = some (FieldValue.bool true)
      ∧ getk (sampleC2.updateField "terms" (FieldValue.bool false)).form "terms"
          ≠ some (FieldValue.bool false) := by
  refine ⟨rfl, rfl, ?_⟩
  decide

/-- C2 amended: `updateField(name, v)` writes `v` into the values container
unless `v` is falsy — `undefined`, the empty string, OR the boolean `false`;
a deliberate `false` is skipped, exactly like an absent value. -/
theorem updateField_amended (f : Form) (field : String) (v : FieldValue) :
    (v = FieldValue.undef ∨ v = FieldValue.str "" ∨ v = FieldValue.bool false →
        f.updateField field v = f)
      ∧ (v ≠ FieldValue.undef → v ≠ FieldValue.str "" → v ≠ FieldValue.bool false →
          getk (f.updateField field v).form field = some v) := by
  constructor
  · rintro (rfl | rfl | rfl) <;> simp [Form.updateField, FieldValue.truthy]
  · intro h1 h2 h3
    have ht : v.truthy = true := by
      cases v with
      | str s =>
        simp only [FieldValue.truthy, Bool.not_eq_true']
        simp only [beq_eq_false_iff_ne, ne_eq]
        intro hs
        exact h2 (by rw [hs])
      | bool b =>
        cases b with
        | false => exact absurd rfl h3
        | true => rfl
      | undef => exact absurd rfl h1
    simp [Form.updateField, ht, getk_setk_self]

/-- C2 amended, witness: skipping for `false` and writing a truthy string,
on the concrete instance. -/
theorem updateField_amended_witness :
    (sampleC2.updateField "terms" (FieldValue.bool false) = sampleC2)
      ∧ getk (sampleC2.updateField "terms" (FieldValue.str "yes")).form "terms"
          = some (FieldValue.str "yes") :=
  ⟨(updateField_amended sampleC2 "terms" (FieldValue.bool false)).1
      (Or.inr (Or.inr rfl)),
   (updateField_amended sampleC2 "terms" (FieldValue.str "yes")).2
      (by decide) (by decide) (by decide)⟩

/-! ### C3: precedence between custom validate function and schema -/

/-- The observable store contents of a `Form` state: everything except the
configured validators and callback flag. -/
def Form.obs (f : Form) :
    StrMap FieldValue × StrMap ErrVal × StrMap Bool × Bool × Bool × StrMap FieldValue :=
  (f.form, f.errors, f.touched, f.isSubmitting, f.isValidating, f.initialValues)

/-- The schema for the C3 counterexample: single-field validation always
fails with a recognizable message. -/
def schemaC3 : Schema :=
  { validateForm := fun _ => Except.error [("a", "schema form error")]
    validateAt := fun _ _ => Except.error "schema says no" }

/-- The custom validate function for the C3 counterexample: always fails
with a different recognizable message. -/
def fnC3 : StrMap FieldValue → Option (StrMap String) :=
  fun _ => some [("a", "fn says no")]

/-- Concrete instance for C3, with BOTH validators configured. -/
def sampleC3 : Form :=
  Form.new { initialValues := [("a", FieldValue.str "x")]
             validationSchema := some schemaC3
             validate := some fnC3
             onSubmit := true }

/-- C3 counterexample: with both a custom function and a schema configured,
the single-field path (`updateValidateField`) stores the SCHEMA's message,
not the custom function's — the schema, not the custom function, is invoked
on this validation path. -/
theorem singleField_uses_schema_counterexample :
    getk (sampleC3.updateValidateField "a" (FieldValue.str "y")).errors "a"
        = some (some "schema says no")
      ∧ getk (sampleC3.updateValidateField "a" (FieldValue.str "y")).errors "a"
        ≠ some (some "fn says no") := by
  exact ⟨rfl, by decide⟩

/-- C3 amended: precedence differs per path.  In `handleSubmit` the custom
function takes precedence — when one is configured the observable outcome is
independent of any configured schema (the schema is never consulted).  In
single-field validation (`validateFieldValue`, hence `updateValidateField`
and `validateField`) the SCHEMA takes precedence — when one is configured
the observable outcome is independent of any configured custom function. -/
theorem validator_precedence_amended (f : Form) (sch : Schema)
    (vfn : StrMap FieldValue → Option (StrMap String))
    (field : String) (value : FieldValue) :
    (f.validateFn = some vfn →
        (Form.handleSubmit { f with validationSchema := some sch }).1.obs
            = (Form.handleSubmit { f with validationSchema := none }).1.obs
          ∧ (Form.handleSubmit { f with validationSchema := some sch }).2
            = (Form.handleSubmit { f with validationSchema := none }).2)
      ∧ (f.validationSchema = some sch →
          (Form.validateFieldValue { f with validateFn := some vfn } field value).obs
            = (Form.validateFieldValue { f with validateFn := none } field value).obs) := by
  constructor
  · intro h
    simp only [Form.handleSubmit, Form.clearErrorsAndSubmit, h]
    cases hv : vfn f.form with
    | none =>
      by_cases hs : f.hasOnSubmit <;> simp [hv, hs, Form.obs]
    | some m =>
      by_cases hk : (keysOf m).length ≤ 0 <;>
        by_cases hs : f.hasOnSubmit <;>
          simp [hv, hk, hs, Form.obs]
  · intro h
    simp only [Form.validateFieldValue, Form.updateTouched, h]
    cases hv : sch.validateAt field f.form <;> simp [hv, Form.obs]

/-! ### C4: keys of errors / touched / modified vs keys of initial values -/

theorem keysOf_modified (f : Form) : keysOf f.modified = keysOf f.form := by
  simp [Form.modified, keysOf]

theorem keysOf_strToErr (m : StrMap String) : keysOf (strToErr m) = keysOf m := by
  simp [strToErr, keysOf]

theorem clone_of_defined (m : StrMap FieldValue)
    (h : ∀ p ∈ m, p.2 ≠ FieldValue.undef) : clone m = m := by
  unfold clone
  rw [List.filter_eq_self]
  intro p hp
  simp only [Bool.not_eq_true', beq_eq_false_iff_ne, ne_eq]
  exact h p hp

theorem keysOf_foldl_setk (l : List (String × String)) (e : StrMap ErrVal)
    (h : ∀ pv ∈ l, pv.1 ∈ keysOf e) :
    keysOf (l.foldl (fun acc pv => setk acc pv.1 (some pv.2)) e) = keysOf e := by
  induction l generalizing e with
  | nil => rfl
  | cons pv rest ih =>
    have h1 : pv.1 ∈ keysOf e := h pv (by simp)
    have hk := keysOf_setk_mem e pv.1 (some pv.2) h1
    rw [List.foldl_cons, ih (setk e pv.1 (some pv.2))
      (fun q hq => by rw [hk]; exact h q (by simp [hq])), hk]

theorem validateFieldValue_keys (f : Form) (field : String) (v : FieldValue)
    (hme : field ∈ keysOf f.errors) (hmt : field ∈ keysOf f.touched) :
    (f.validateFieldValue field v).form = f.form
      ∧ (f.validateFieldValue field v).initialValues = f.initialValues
      ∧ keysOf (f.validateFieldValue field v).errors = keysOf f.errors
      ∧ keysOf (f.validateFieldValue field v).touched = keysOf f.touched := by
  unfold Form.validateFieldValue Form.updateTouched
  have hts := keysOf_setk_mem f.touched field true hmt
  cases hs : f.validationSchema with
  | some sch =>
    cases hv : sch.validateAt field f.form <;>
      simp [hv, keysOf_setk_mem _ _ _ hme, hts]
  | none =>
    cases hfn : f.validateFn with
    | some vfn => simp [keysOf_setk_mem _ _ _ hme, hts]
    | none => simp [hts]

/-- The key-set invariant claimed by the spec: the keys of the values,
errors, touched and modified containers all equal the keys of the stored
initial values. -/
def Form.keysOk (f : Form) : Prop :=
  keysOf f.form = keysOf f.initialValues
    ∧ keysOf f.errors = keysOf f.initialValues
    ∧ keysOf f.touched = keysOf f.initialValues
    ∧ keysOf f.modified = keysOf f.initialValues

/-- The custom validate function for the C4 counterexample: fails with an
error map mentioning only `email`. -/
def fnC4 : StrMap FieldValue → Option (StrMap String) :=
  fun _ => some [("email", "bad")]

/-- Concrete instance for C4: two fields, custom validator returning a
one-key error map. -/
def sampleC4 : Form :=
  Form.new { initialValues := [("name", FieldValue.str "n"), ("email", FieldValue.str "e")]
             validationSchema := none
             validate := some fnC4
             onSubmit := true }

/-- C4 counterexample: after a `handleSubmit` whose custom validator
returns a one-key error map over a two-field form, the errors container has
exactly the key `email` — the key `name` from the initial values is gone, so
the keys of errors are NOT the keys of the initial-values map. -/
theorem handleSubmit_partial_map_drops_keys_counterexample :
    keysOf (sampleC4.handleSubmit).1.errors = ["email"]
      ∧ keysOf sampleC4.initialValues = ["name", "email"]
      ∧ keysOf (sampleC4.handleSubmit).1.errors ≠ keysOf sampleC4.initialValues := by
  refine ⟨rfl, rfl, by decide⟩

theorem keysOk_of (f : Form)
    (h1 : keysOf f.form = keysOf f.initialValues)
    (h2 : keysOf f.errors = keysOf f.initialValues)
    (h3 : keysOf f.touched = keysOf f.initialValues) : f.keysOk :=
  ⟨h1, h2, h3, (keysOf_modified f).trans h1⟩

/-- C4 amended: starting from a state the key-set invariant holds in, every
operation that names a field of the initial-values map preserves it —
`updateField`, `updateTouched`, `validateFieldValue`, `validateField`,
`updateValidateField`, `handleReset` (when no initial value is `undefined`,
since the JSON deep copy drops `undefined` entries), and `handleSubmit` on
the no-validator path, the custom-validator success path, and both schema
paths (failure violations naming only initial fields) — EXCEPT the branch
where the custom validator fails: there `errors.set(error)` installs the
returned map verbatim, so the keys of errors become exactly the keys of the
returned (possibly partial) map, not the keys of the initial values. -/
theorem keys_invariant_amended (f : Form) (field : String) (v : FieldValue) (b : Bool)
    (hf : keysOf f.form = keysOf f.initialValues)
    (he : keysOf f.errors = keysOf f.initialValues)
    (ht : keysOf f.touched = keysOf f.initialValues)
    (hmem : field ∈ keysOf f.initialValues) :
    Form.keysOk (f.updateField field v)
      ∧ Form.keysOk (f.updateTouched field b)
      ∧ Form.keysOk (f.validateFieldValue field v)
      ∧ Form.keysOk (f.validateField field)
      ∧ Form.keysOk (f.updateValidateField field v)
      ∧ ((∀ p ∈ f.initialValues, p.2 ≠ FieldValue.undef) → Form.keysOk f.handleReset)
      ∧ (f.validateFn = none → f.validationSchema = none → Form.keysOk (f.handleSubmit).1)
      ∧ (∀ vfn m, f.validateFn = some vfn → vfn f.form = some m → 0 < (keysOf m).length →
          keysOf (f.handleSubmit).1.errors = keysOf m)
      ∧ (∀ vfn, f.validateFn = some vfn → (vfn f.form = none ∨ vfn f.form = some []) →
          Form.keysOk (f.handleSubmit).1)
      ∧ (∀ sch, f.validateFn = none → f.validationSchema = some sch →
          sch.validateForm f.form = Except.ok () → Form.keysOk (f.handleSubmit).1)
      ∧ (∀ sch viols, f.validateFn = none → f.validationSchema = some sch →
          sch.validateForm f.form = Except.error viols →
          (∀ pv ∈ viols, pv.1 ∈ keysOf f.initialValues) →
          Form.keysOk (f.handleSubmit).1) := by
  have hmf : field ∈ keysOf f.form := by rw [hf]; exact hmem
  have hme2 : field ∈ keysOf f.errors := by rw [he]; exact hmem
  have hmt2 : field ∈ keysOf f.touched := by rw [ht]; exact hmem
  have kUF : Form.keysOk (f.updateField field v) := by
    unfold Form.updateField
    by_cases htr : v.truthy = true
    · rw [if_pos htr]
      exact keysOk_of _ ((keysOf_setk_mem f.form field v hmf).trans hf) he ht
    · rw [if_neg htr]
      exact keysOk_of _ hf he ht
  have kUT : ∀ b2 : Bool, Form.keysOk (f.updateTouched field b2) := fun b2 =>
    keysOk_of _ hf he ((keysOf_setk_mem f.touched field b2 hmt2).trans ht)
  have kVFV : ∀ v2, Form.keysOk (f.validateFieldValue field v2) := by
    intro v2
    obtain ⟨h1, h2, h3, h4⟩ := validateFieldValue_keys f field v2 hme2 hmt2
    refine keysOk_of _ ?_ ?_ ?_
    · rw [h1, h2]; exact hf
    · rw [h3, h2]; exact he
    · rw [h4, h2]; exact ht
  have kUVF : Form.keysOk (f.updateValidateField field v) := by
    have p1 : (f.updateField field v).errors = f.errors := by
      unfold Form.updateField; split <;> rfl
    have p2 : (f.updateField field v).touched = f.touched := by
      unfold Form.updateField; split <;> rfl
    have p3 : (f.updateField field v).initialValues = f.initialValues := by
      unfold Form.updateField; split <;> rfl
    obtain ⟨h1, h2, h3, h4⟩ := validateFieldValue_keys (f.updateField field v) field v
      (by rw [p1]; exact hme2) (by rw [p2]; exact hmt2)
    unfold Form.updateValidateField
    refine keysOk_of _ ?_ ?_ ?_
    · rw [h1, h2, p3]
      have := kUF.1
      rw [p3] at this
      exact this
    · rw [h3, p1, h2, p3]; exact he
    · rw [h4, p2, h2, p3]; exact ht
  have kHR : (∀ p ∈ f.initialValues, p.2 ≠ FieldValue.undef) → Form.keysOk f.handleReset := by
    intro hdef
    unfold Form.handleReset
    refine keysOk_of _ ?_ ?_ ?_
    · show keysOf (getInitialValues f.initialValues) = keysOf f.initialValues
      rw [getInitialValues, clone_of_defined f.initialValues hdef]
    · exact keysOf_mapAssign f.initialValues (some "")
    · exact keysOf_mapAssign f.initialValues false
  have kHS0 : f.validateFn = none → f.validationSchema = none →
      Form.keysOk (f.handleSubmit).1 := by
    intro hfn hsch
    unfold Form.handleSubmit Form.clearErrorsAndSubmit
    simp only [hfn, hsch]
    by_cases hs : f.hasOnSubmit = true
    · simp only [hs, if_true]
      exact keysOk_of _ hf ((keysOf_mapAssign f.form (some "")).trans hf) ht
    · rw [if_neg hs]
      exact keysOk_of _ hf he ht
  have kHS1 : ∀ vfn m, f.validateFn = some vfn → vfn f.form = some m →
      0 < (keysOf m).length → keysOf (f.handleSubmit).1.errors = keysOf m := by
    intro vfn m hfn hvm hlen
    unfold Form.handleSubmit
    simp only [hfn, hvm]
    rw [if_neg (by omega)]
    exact keysOf_strToErr m
  have kHS2 : ∀ vfn, f.validateFn = some vfn → (vfn f.form = none ∨ vfn f.form = some []) →
      Form.keysOk (f.handleSubmit).1 := by
    intro vfn hfn hv
    unfold Form.handleSubmit Form.clearErrorsAndSubmit
    rcases hv with hv | hv
    · simp only [hfn, hv]
      by_cases hs : f.hasOnSubmit = true
      · simp only [hs, if_true]
        exact keysOk_of _ hf ((keysOf_mapAssign f.form (some "")).trans hf) ht
      · rw [if_neg hs]
        exact keysOk_of _ hf he ht
    · simp only [hfn, hv]
      rw [if_pos (by simp [keysOf])]
      by_cases hs : f.hasOnSubmit = true
      · simp only [hs, if_true]
        exact keysOk_of _ hf ((keysOf_mapAssign f.form (some "")).trans hf) ht
      · rw [if_neg hs]
        exact keysOk_of _ hf he ht
  have kHS3 : ∀ sch, f.validateFn = none → f.validationSchema = some sch →
      sch.validateForm f.form = Except.ok () → Form.keysOk (f.handleSubmit).1 := by
    intro sch hfn hsch hok
    unfold Form.handleSubmit Form.clearErrorsAndSubmit
    simp only [hfn, hsch, hok]
    by_cases hs : f.hasOnSubmit = true
    · simp only [hs, if_true]
      exact keysOk_of _ hf ((keysOf_mapAssign f.form (some "")).trans hf) ht
    · rw [if_neg hs]
      exact keysOk_of _ hf he ht
  have kHS4 : ∀ sch viols, f.validateFn = none → f.validationSchema = some sch →
      sch.validateForm f.form = Except.error viols →
      (∀ pv ∈ viols, pv.1 ∈ keysOf f.initialValues) →
      Form.keysOk (f.handleSubmit).1 := by
    intro sch viols hfn hsch herr hmemv
    unfold Form.handleSubmit
    simp only [hfn, hsch, herr]
    refine keysOk_of _ hf ?_ ht
    exact (keysOf_foldl_setk viols f.errors
      (fun pv hpv => by rw [he]; exact hmemv pv hpv)).trans he
  exact ⟨kUF, kUT b, kVFV v, kVFV _, kUVF, kHR, kHS0, kHS1, kHS2, kHS3, kHS4⟩

/-- C4 amended, witness: on the concrete two-field instance, `updateTouched`
preserves the key sets, and the failing custom validator installs its
partial map's keys verbatim. -/
theorem keys_invariant_amended_witness :
    Form.keysOk (sampleC4.updateTouched "name" true)
      ∧ keysOf (sampleC4.handleSubmit).1.errors = keysOf [("email", "bad")] := by
  have h := keys_invariant_amended sampleC4 "name" (FieldValue.str "z") true rfl rfl rfl
    (by decide)
  exact ⟨h.2.1, h.2.2.2.2.2.2.2.1 fnC4 [("email", "bad")] rfl rfl (by decide)⟩

/-! ### C5: custom single-field validation, returned map missing the field -/

/-- The custom validate function for C5: a non-null map that never mentions
field `a`. -/
def fnC5 : StrMap FieldValue → Option (StrMap String) :=
  fun _ => some [("other", "x")]

/-- Concrete instance for C5, with a pre-existing error on `a`. -/
def sampleC5 : Form :=
  { Form.new { initialValues := [("a", FieldValue.str "v")]
               validationSchema := none
               validate := some fnC5
               onSubmit := true }
    with errors := [("a", some "old error")] }

/-- C5 counterexample: validating field `a` when the custom function
returns a non-null map with no key `a` stores JS `undefined` (`none`) in the
errors container at `a` — not the empty string the claim requires. -/
theorem missingKey_stores_undefined_counterexample :
    getk (sampleC5.validateField "a").errors "a" = some none
      ∧ getk (sampleC5.validateField "a").errors "a" ≠ some (some "") := by
  exact ⟨rfl, by decide⟩

/-- C5 amended: when only a custom validate function is configured and it
returns a non-null map with no key for the validated field, the field's
errors entry IS overwritten (the previous error is not left in place), but
with `errs[field]`, i.e. JS `undefined` — a non-string value — rather than
the empty string. -/
theorem missingKey_amended (f : Form) (field : String) (value : FieldValue)
    (vfn : StrMap FieldValue → Option (StrMap String)) (m : StrMap String)
    (hsch : f.validationSchema = none) (hfn : f.validateFn = some vfn)
    (hm : vfn [(field, value)] = some m) (hmiss : getk m field = none) :
    (f.validateFieldValue field value).errors = setk f.errors field none
      ∧ getk (f.validateFieldValue field value).errors field = some none := by
  unfold Form.validateFieldValue Form.updateTouched
  simp only [hsch, hfn, hm, hmiss]
  constructor
  · trivial
  · exact getk_setk_self f.errors field none

/-- C5 amended, witness: on the concrete instance the old error on `a` is
replaced by `undefined`. -/
theorem missingKey_amended_witness :
    (sampleC5.validateFieldValue "a" (FieldValue.str "v")).errors
        = setk sampleC5.errors "a" none
      ∧ getk (sampleC5.validateFieldValue "a" (FieldValue.str "v")).errors "a"
        = some none :=
  missingKey_amended sampleC5 "a" (FieldValue.str "v") fnC5 [("other", "x")]
    rfl rfl rfl rfl

/-! ### C6: handleReset as inverse of update sequences -/

/-- One mutation from the sequences the spec quantifies over: a field-value
update (`updateField`), a touched update (`updateTouched`), or a per-field
error write (the `update` helper on the errors store). -/
inductive MutOp where
  | upd (field : String) (value : FieldValue)
  | touch (field : String) (value : Bool)
  | errw (field : String) (value : ErrVal)

/-- Apply one mutation. -/
def Form.applyOp (f : Form) : MutOp → Form
  | .upd field v => f.updateField field v
  | .touch field b => f.updateTouched field b
  | .errw field e => { f with errors := setk f.errors field e }

/-- Apply a sequence of mutations, oldest first. -/
def Form.applyOps (f : Form) (ops : List MutOp) : Form :=
  ops.foldl Form.applyOp f

theorem applyOp_initialValues (f : Form) (op : MutOp) :
    (f.applyOp op).initialValues = f.initialValues := by
  cases op with
  | upd field v =>
    show (f.updateField field v).initialValues = f.initialValues
    unfold Form.updateField
    split <;> rfl
  | touch field b => rfl
  | errw field e => rfl

theorem applyOps_initialValues (f : Form) (ops : List MutOp) :
    (f.applyOps ops).initialValues = f.initialValues := by
  induction ops generalizing f with
  | nil => rfl
  | cons op rest ih =>
    show ((f.applyOp op).applyOps rest).initialValues = f.initialValues
    rw [ih, applyOp_initialValues]

theorem applyOps_handleReset (f : Form) (ops : List MutOp) :
    ((f.applyOps ops).handleReset).form = getInitialValues f.initialValues
      ∧ ((f.applyOps ops).handleReset).errors = getInitialErrors f.initialValues
      ∧ ((f.applyOps ops).handleReset).touched = getInitialTouched f.initialValues := by
  refine ⟨?_, ?_, ?_⟩ <;> simp [Form.handleReset, applyOps_initialValues]

/-- C6: `handleReset` is idempotent, and after any sequence of
`updateField` / `updateTouched` / error writes it restores the values,
errors and touched stores to exactly their state just after construction —
or, when an `updateInitialValues` with a non-empty map came in between, to
their state just after that `updateInitialValues`. -/
theorem handleReset_spec (cfg : FormConfig) (ops : List MutOp) (nv : StrMap FieldValue) :
    ((((Form.new cfg).applyOps ops).handleReset).handleReset
        = ((Form.new cfg).applyOps ops).handleReset)
      ∧ (((Form.new cfg).applyOps ops).handleReset).form = (Form.new cfg).form
      ∧ (((Form.new cfg).applyOps ops).handleReset).errors = (Form.new cfg).errors
      ∧ (((Form.new cfg).applyOps ops).handleReset).touched = (Form.new cfg).touched
      ∧ (isInitialValuesValid nv = true →
          ((((Form.new cfg).updateInitialValues nv).applyOps ops).handleReset).form
              = ((Form.new cfg).updateInitialValues nv).form
            ∧ ((((Form.new cfg).updateInitialValues nv).applyOps ops).handleReset).errors
              = ((Form.new cfg).updateInitialValues nv).errors
            ∧ ((((Form.new cfg).updateInitialValues nv).applyOps ops).handleReset).touched
              = ((Form.new cfg).updateInitialValues nv).touched) := by
  obtain ⟨a1, a2, a3⟩ := applyOps_handleReset (Form.new cfg) ops
  refine ⟨rfl, ?_, ?_, ?_, ?_⟩
  · exact a1
  · exact a2
  · exact a3
  · intro hv
    have hg : ((Form.new cfg).updateInitialValues nv).initialValues = nv := by
      unfold Form.updateInitialValues
      rw [if_pos hv]
      rfl
    obtain ⟨b1, b2, b3⟩ := applyOps_handleReset ((Form.new cfg).updateInitialValues nv) ops
    rw [hg] at b1 b2 b3
    refine ⟨?_, ?_, ?_⟩
    · rw [b1]; unfold Form.updateInitialValues; rw [if_pos hv]; rfl
    · rw [b2]; unfold Form.updateInitialValues; rw [if_pos hv]; rfl
    · rw [b3]; unfold Form.updateInitialValues; rw [if_pos hv]; rfl

/-- Concrete configuration for the C6 witness. -/
def cfgC6 : FormConfig :=
  { initialValues := [("a", FieldValue.str "x")]
    validationSchema := none
    validate := none
    onSubmit := true }

/-- Concrete mutation sequence for the C6 witness. -/
def opsC6 : List MutOp :=
  [MutOp.upd "a" (FieldValue.str "y"), MutOp.errw "a" (some "oops"),
   MutOp.touch "a" true]

/-- Concrete replacement initial values for the C6 witness. -/
def nvC6 : StrMap FieldValue := [("b", FieldValue.bool true)]

/-- C6 witness: the reset equalities on a concrete run, including the
non-empty `updateInitialValues` branch. -/
theorem handleReset_spec_witness :
    ((((Form.new cfgC6).applyOps opsC6).handleReset).handleReset
        = (((Form.new cfgC6)).applyOps opsC6).handleReset)
      ∧ ((((Form.new cfgC6).updateInitialValues nvC6).applyOps opsC6).handleReset).form
          = ((Form.new cfgC6).updateInitialValues nvC6).form := by
  have h := handleReset_spec cfgC6 opsC6 nvC6
  exact ⟨h.1, (h.2.2.2.2 (by decide)).1⟩

/-! ### C7: handleSubmit always clears isSubmitting -/

/-- C7: after `handleSubmit` resolves, `isSubmitting` is `false` on every
branch — custom-validator success and failure, schema success and failure,
and the no-validator path alike. -/
theorem handleSubmit_isSubmitting_false (f : Form) :
    (f.handleSubmit).1.isSubmitting = false := by
  unfold Form.handleSubmit Form.clearErrorsAndSubmit
  cases hfn : f.validateFn with
  | some vfn =>
    simp only [hfn]
    cases hv : vfn f.form with
    | none => by_cases hs : f.hasOnSubmit = true <;> simp [hv, hs]
    | some m =>
      by_cases hk : (keysOf m).length ≤ 0 <;>
        by_cases hs : f.hasOnSubmit = true <;> simp [hv, hk, hs]
  | none =>
    simp only [hfn]
    cases hsch : f.validationSchema with
    | some sch =>
      simp only [hsch]
      cases hvf : sch.validateForm f.form with
      | ok u => by_cases hs : f.hasOnSubmit = true <;> simp [hvf, hs]
      | error viols => simp [hvf]
    | none =>
      simp only [hsch]
      by_cases hs : f.hasOnSubmit = true <;> simp [hs]

/-! ### C8: whole-form schema failure only writes the violated fields -/

theorem getk_foldl_setk_notmem (l : List (String × String)) (e : StrMap ErrVal)
    (k : String) (h : ∀ pv ∈ l, pv.1 ≠ k) :
    getk (l.foldl (fun acc pv => setk acc pv.1 (some pv.2)) e) k = getk e k := by
  induction l generalizing e with
  | nil => rfl
  | cons pv rest ih =>
    rw [List.foldl_cons, ih (setk e pv.1 (some pv.2)) (fun q hq => h q (by simp [hq])),
      getk_setk_ne e pv.1 k (some pv.2) (h pv (by simp))]

/-- C8: when whole-form schema validation fails in `handleSubmit` with a
structured list of violations, the errors container keeps its prior value
at every field not named by a violation. -/
theorem schema_failure_frame (f : Form) (sch : Schema)
    (viols : List (String × String)) (k : String)
    (hfn : f.validateFn = none) (hsch : f.validationSchema = some sch)
    (hval : sch.validateForm f.form = Except.error viols)
    (hk : ∀ pv ∈ viols, pv.1 ≠ k) :
    getk (f.handleSubmit).1.errors k = getk f.errors k := by
  unfold Form.handleSubmit
  simp only [hfn, hsch, hval]
  exact getk_foldl_setk_notmem viols f.errors k hk

/-- Schema for the C8 witness: whole-form validation always reports one
violation, on `a` only. -/
def schemaC8 : Schema :=
  { validateForm := fun _ => Except.error [("a", "a is required")]
    validateAt := fun _ _ => Except.ok () }

/-- Concrete instance for C8, with a stale error on `b`. -/
def sampleC8 : Form :=
  { Form.new { initialValues := [("a", FieldValue.str ""), ("b", FieldValue.str "")]
               validationSchema := some schemaC8
               validate := none
               onSubmit := true }
    with errors := [("a", some ""), ("b", some "stale")] }

/-- C8 witness: field `b`, not mentioned by the violation list, keeps its
stale error across the failed submit. -/
theorem schema_failure_frame_witness :
    getk (sampleC8.handleSubmit).1.errors "b" = getk sampleC8.errors "b" :=
  schema_failure_frame sampleC8 schemaC8 [("a", "a is required")] "b"
    rfl rfl rfl (by decide)

/-! ### C9: successful submit without an onSubmit callback -/

/-- C9: when no `onSubmit` callback is configured, each successful branch of
`handleSubmit` — no validator, custom validator passing (returning
null/undefined or an empty map), or schema passing — leaves the errors
container completely unchanged (it is NOT cleared to empty strings), still
sets `isSubmitting` back to `false`, and invokes no callback. -/
theorem no_onSubmit_success_frame (f : Form) (h : f.hasOnSubmit = false) :
    (f.validateFn = none → f.validationSchema = none →
        ((f.handleSubmit).1.errors = f.errors
          ∧ (f.handleSubmit).1.isSubmitting = false ∧ (f.handleSubmit).2 = false))
      ∧ (∀ vfn, f.validateFn = some vfn →
          (vfn f.form = none ∨ vfn f.form = some []) →
          ((f.handleSubmit).1.errors = f.errors
            ∧ (f.handleSubmit).1.isSubmitting = false ∧ (f.handleSubmit).2 = false))
      ∧ (∀ sch, f.validateFn = none → f.validationSchema = some sch →
          sch.validateForm f.form = Except.ok () →
          ((f.handleSubmit).1.errors = f.errors
            ∧ (f.handleSubmit).1.isSubmitting = false ∧ (f.handleSubmit).2 = false)) := by
  refine ⟨?_, ?_, ?_⟩
  · intro hfn hsch
    unfold Form.handleSubmit Form.clearErrorsAndSubmit
    simp [hfn, hsch, h]
  · intro vfn hfn hv
    unfold Form.handleSubmit Form.clearErrorsAndSubmit
    rcases hv with hv | hv
    · simp [hfn, hv, h]
    · simp [hfn, hv, h, keysOf]
  · intro sch hfn hsch hok
    unfold Form.handleSubmit Form.clearErrorsAndSubmit
    simp [hfn, hsch, hok, h]

/-- Concrete instance for C9: no callback, no validators, a leftover error. -/
def sampleC9 : Form :=
  { Form.new { initialValues := [("a", FieldValue.str "x")]
               validationSchema := none
               validate := none
               onSubmit := false }
    with errors := [("a", some "leftover")] }

/-- C9 witness: submitting the concrete callback-less instance keeps the
leftover error, clears `isSubmitting` and invokes nothing. -/
theorem no_onSubmit_success_frame_witness :
    (sampleC9.handleSubmit).1.errors = sampleC9.errors
      ∧ (sampleC9.handleSubmit).1.isSubmitting = false
      ∧ (sampleC9.handleSubmit).2 = false :=
  (no_onSubmit_success_frame sampleC9 rfl).1 rfl rfl

/-! ### C10: isValid straight after construction -/

/-- C10: construction always completes, and immediately afterwards `isValid`
is `true` exactly when the initial-values map is empty — the all-touched and
no-errors clauses hold vacuously over empty containers — while any non-empty
initial map starts with every field untouched, making `isValid` `false`. -/
theorem construction_isValid (cfg : FormConfig) :
    (cfg.initialValues = [] → (Form.new cfg).isValid = true)
      ∧ (cfg.initialValues ≠ [] → (Form.new cfg).isValid = false) := by
  constructor
  · intro h
    simp [Form.new, Form.isValid, h, valuesOf, getInitialErrors, getInitialTouched,
      mapAssign]
  · intro h
    cases hiv : cfg.initialValues with
    | nil => exact absurd hiv h
    | cons p rest =>
      simp [Form.new, Form.isValid, hiv, valuesOf, getInitialErrors, getInitialTouched,
        mapAssign]

/-- Empty-initial-values configuration for the C10 witness. -/
def cfgC10empty : FormConfig :=
  { initialValues := [], validationSchema := none, validate := none, onSubmit := true }

/-- One-field configuration for the C10 witness. -/
def cfgC10one : FormConfig :=
  { initialValues := [("a", FieldValue.str "")]
    validationSchema := none
    validate := none
    onSubmit := true }

/-- C10 witness: `isValid` just after construction is `true` for the empty
map and `false` for a one-field map. -/
theorem construction_isValid_witness :
    (Form.new cfgC10empty).isValid = true ∧ (Form.new cfgC10one).isValid = false :=
  ⟨(construction_isValid cfgC10empty).1 rfl,
   (construction_isValid cfgC10one).2 (by decide)⟩

/-- C3 amended, witness: on the concrete both-validators instance, the
submit outcome ignores the schema and the single-field outcome ignores the
custom function. -/
theorem validator_precedence_amended_witness :
    ((Form.handleSubmit { sampleC3 with validationSchema := some schemaC3 }).1.obs
        = (Form.handleSubmit { sampleC3 with validationSchema := none }).1.obs)
      ∧ ((Form.validateFieldValue { sampleC3 with validateFn := some fnC3 } "a"
            (FieldValue.str "y")).obs
        = (Form.validateFieldValue { sampleC3 with validateFn := none } "a"
            (FieldValue.str "y")).obs) := by
  have h := validator_precedence_amended sampleC3 schemaC3 fnC3 "a" (FieldValue.str "y")
  exact ⟨(h.1 rfl).1, h.2 rfl⟩
